import Mathlib

/-!
Verification of the request admission and observability pipeline of the
VisionData API server (Go / Gin). The definitions below are shallow
embeddings of the middleware chain found under `internal/middleware`
(throttling, request-id, JWT auth) and of the asynchronous logger found
under `pkg/logger`. Durations are modelled in whole seconds as `Int`,
machine integers as unbounded `Int`/`Nat`, the external Redis store as an
explicit association list together with an availability flag, and the
concurrent parts (the weighted semaphore, the logger worker) as explicit
labelled transition systems.
-/

namespace VisionData

/-- A response header value: a duration (in seconds), or a plain string. -/
inductive HdrVal where
  | dur (seconds : Int)
  | str (s : String)
deriving DecidableEq, Repr

/-- An inbound HTTP request as the throttling middleware sees it: the URL
path and the client IP (`c.ClientIP()`). -/
structure Request where
  path : String
  ip : String
deriving DecidableEq, Repr

/-- State of the external Redis counting store: an availability flag (false
models an unreachable store: every command errors) and the key/value/TTL
triples it holds. Values are the stored strings; TTLs are in seconds. -/
structure RedisSt where
  avail : Bool
  store : List (String × String × Int)
deriving DecidableEq, Repr

/-- Value of a digit list read in base 10. -/
def digitsVal (l : List Char) : Nat :=
  l.foldl (fun a c => a * 10 + (c.toNat - 48)) 0

/-- Parse a non-empty all-digit character list as a natural number. -/
def atoiNat (l : List Char) : Option Nat :=
  if l.isEmpty || !(l.all Char.isDigit) then none else some (digitsVal l)

/-- Go `strconv.Atoi`: an optional sign followed by at least one digit;
anything else is an error (`none`). Overflow is idealised away: the stored
counters stay small. -/
def atoi (s : String) : Option Int :=
  match s.toList with
  | [] => none
  | '+' :: rest => (atoiNat rest).map Int.ofNat
  | '-' :: rest => (atoiNat rest).map (fun n => -(n : Int))
  | l => (atoiNat l).map Int.ofNat

/-- Redis `GET`: `ok none` models `redis.Nil` (absent key); an unreachable
store makes every command fail. -/
def rGet (st : RedisSt) (k : String) : Except String (Option String) :=
  if st.avail then .ok ((st.store.lookup k).map Prod.fst)
  else .error "redis: connection refused"

/-- Replace (or insert) the binding of `k` in the store's association list. -/
def storeSet (l : List (String × String × Int)) (k v : String) (ttl : Int) :
    List (String × String × Int) :=
  (k, v, ttl) :: l.filter (fun p => p.1 != k)

/-- Redis `SET key value EX ttl`. -/
def rSet (st : RedisSt) (k v : String) (ttl : Int) : Except String RedisSt :=
  if st.avail then .ok { st with store := storeSet st.store k v ttl }
  else .error "redis: connection refused"

/-- Redis `TTL`: the remaining time to live, `-2` for an absent key. -/
def rTTL (st : RedisSt) (k : String) : Except String Int :=
  if st.avail then
    match st.store.lookup k with
    | some (_, t) => .ok t
    | none => .ok (-2)
  else .error "redis: connection refused"

/-- Redis `INCR`: parses the stored value as an integer and increments it
(keeping the TTL); errors when the value is not an integer; initialises an
absent key to 1 with no expiry. -/
def rIncr (st : RedisSt) (k : String) : Except String RedisSt :=
  if st.avail then
    match st.store.lookup k with
    | some (v, t) =>
      match atoi v with
      | some n => .ok { st with store := storeSet st.store k (toString (n + 1)) t }
      | none => .error "ERR value is not an integer or out of range"
    | none => .ok { st with store := storeSet st.store k "1" (-1) }
  else .error "redis: connection refused"

/-- Configuration of the rate limiter (`RateLimiter` struct): the maximum
requests per window and the window length in seconds (60 in the source). -/
structure RateLimiter where
  maxRequests : Int
  window : Int
deriving DecidableEq, Repr

/-- checkRateLimit from internal/middleware/throttling.go: read the counter
for the IP; absent means first request (store 1 with the window as expiry and
admit); unparsable means error; at or above the maximum means reject with the
key's remaining TTL as retry hint; otherwise increment and admit. Returns
`(allowed, retryAfter, new store)` or the first store error encountered. -/
def checkRateLimit (rl : RateLimiter) (st : RedisSt) (ip : String) :
    Except String (Bool × Int × RedisSt) :=
  match rGet st ip with
  | .ok none =>
    match rSet st ip "1" rl.window with
    | .error e => .error e
    | .ok st1 => .ok (true, 0, st1)
  | .error e => .error e
  | .ok (some val) =>
    match atoi val with
    | none => .error "strconv.Atoi: invalid syntax"
    | some requestCount =>
      if requestCount ≥ rl.maxRequests then
        match rTTL st ip with
        | .error e => .error e
        | .ok ttl => .ok (false, ttl, st)
      else
        match rIncr st ip with
        | .error e => .error e
        | .ok st1 => .ok (true, 0, st1)

/-- Outcome of one run of the throttling middleware: the status it aborted
with (`none` when it did not abort), the headers it set, whether `c.Next()`
was reached, and the store afterwards. -/
structure MWResult where
  status : Option Nat
  headers : List (String × HdrVal)
  nextCalled : Bool
  store : RedisSt
deriving DecidableEq, Repr

/-- handleError: abort with 500 on any internal rate-limiter error. -/
def handleError (st : RedisSt) : MWResult :=
  { status := some 500, headers := [], nextCalled := false, store := st }

/-- handleRateLimitExceeded: set `Retry-After` to the remaining TTL and
abort with 429. -/
def handleRateLimitExceeded (retryAfter : Int) (st : RedisSt) : MWResult :=
  { status := some 429
    headers := [("Retry-After", HdrVal.dur retryAfter)]
    nextCalled := false
    store := st }

/-- RateLimiter.Middleware: run checkRateLimit on the client IP; an error
aborts with 500, a disallowed request aborts with 429, otherwise the chain
continues. The request path is never consulted. -/
def rlMiddleware (rl : RateLimiter) (st : RedisSt) (req : Request) : MWResult :=
  match checkRateLimit rl st req.ip with
  | .error _ => handleError st
  | .ok (allowed, retryAfter, st1) =>
    if allowed then { status := none, headers := [], nextCalled := true, store := st1 }
    else handleRateLimitExceeded retryAfter st1

/-- The admission-gate rejection from setupSemaphore: when `Acquire` fails
(context cancelled) the request is aborted with a bare 429 JSON body and no
extra headers. -/
structure SimpleResp where
  status : Nat
  headers : List (String × HdrVal)
deriving DecidableEq, Repr

/-- Response produced by setupSemaphore when the semaphore acquire fails. -/
def semaphoreRejectResp : SimpleResp :=
  { status := 429, headers := [] }

/-- Outcome of the request-id middleware: the id stored in the request
context under "request_id", the response header it set (if any), and whether
the chain continued. -/
structure IdOutcome where
  ctxRequestId : String
  respHeader : Option (String × String)
  nextCalled : Bool
deriving DecidableEq, Repr

/-- RequestIDMiddleware from internal/middleware/id.go. `inbound` is the
value of the inbound correlation header ("" when absent, as Gin's GetHeader
reports a missing header); `freshId` stands for the uuid.New().String() that
would be generated. The response header is written only inside the
generation branch. -/
def requestIDMiddleware (headerName : String) (inbound : String) (freshId : String) :
    IdOutcome :=
  let hn := if headerName = "" then "X-Request-ID" else headerName
  if inbound = "" then
    { ctxRequestId := freshId, respHeader := some (hn, freshId), nextCalled := true }
  else
    { ctxRequestId := inbound, respHeader := none, nextCalled := true }

/-- Go strings.Split with a single-character separator, on character lists:
splits around every occurrence of the separator, keeping empty fields. -/
def splitChar (sep : Char) : List Char → List (List Char)
  | [] => [[]]
  | c :: rest =>
    let r := splitChar sep rest
    if c = sep then [] :: r
    else
      match r with
      | [] => [[c]]
      | g :: gs => (c :: g) :: gs

/-- Go strings.Split(s, " "). -/
def goSplitSpace (s : String) : List String :=
  (splitChar ' ' s.toList).map (fun l => String.mk l)

/-- Go strings.ToLower restricted to ASCII, which is all the gate compares. -/
def goToLower (s : String) : String :=
  String.mk (s.toList.map Char.toLower)

/-- A decoded JWT claim value (the fragment of Go interface values the gate
inspects). -/
inductive JVal where
  | null
  | num (n : Int)
  | str (s : String)
  | boolean (b : Bool)
deriving DecidableEq, Repr

/-- jwt.MapClaims: the decoded claims map. -/
abbrev MapClaims := List (String × JVal)

/-- Outcome of an auth middleware run: the status it aborted with (`none`
when it passed), the claims attached to the context under "currentUser"
(`none` unless the gate passed), and whether the handler chain continued. -/
structure AuthResult where
  status : Option Nat
  currentUser : Option MapClaims
  nextCalled : Bool
deriving DecidableEq, Repr

/-- The 401 abort shared by every failure branch of the gate. -/
def authReject : AuthResult :=
  { status := some 401, currentUser := none, nextCalled := false }

/-- Auth from internal/middleware/jwt.go: reject 401 when the Authorization
header is missing, when it does not split into exactly two space-separated
parts whose first lowercases to "bearer", or when token verification fails
(`decode` abstracts DecodeTokenJWT = signature + expiry verification plus
claims extraction); otherwise attach the claims and continue. -/
def auth (decode : String → Option MapClaims) (authHeader : String) : AuthResult :=
  if authHeader = "" then authReject
  else if (goSplitSpace authHeader).length ≠ 2 ∨
      goToLower ((goSplitSpace authHeader).headD "") ≠ "bearer" then authReject
  else
    match decode ((goSplitSpace authHeader).getD 1 "") with
    | none => authReject
    | some claims =>
      { status := none, currentUser := some claims, nextCalled := true }

/-- claims["role"] == nil in Go: true when the key is absent or bound to a
JSON null. -/
def roleIsNil (claims : MapClaims) : Bool :=
  match claims.lookup "role" with
  | none => true
  | some JVal.null => true
  | some _ => false

/-- Auth from the variant middleware file (src/unnamed/part_010): takes the
per-route minimum privilege `minAccesScope`, rejects 401 on a missing header,
malformed scheme, failed verification or a nil role claim; the privilege
comparison against minAccesScope is commented out in the source, so the
parameter is never consulted and 403 is never produced. -/
def authScoped (decode : String → Option MapClaims) (minAccesScope : Int)
    (authHeader : String) : AuthResult :=
  if authHeader = "" then authReject
  else if (goSplitSpace authHeader).length ≠ 2 ∨
      goToLower ((goSplitSpace authHeader).headD "") ≠ "bearer" then authReject
  else
    match decode ((goSplitSpace authHeader).getD 1 "") with
    | none => authReject
    | some claims =>
      if roleIsNil claims then authReject
      else { status := none, currentUser := some claims, nextCalled := true }

/-- Lifecycle of one request with respect to the weighted semaphore installed
by setupSemaphore: waiting in Acquire, holding a slot (admitted), finished
(slot released by the deferred Release), or rejected because its context was
cancelled before a slot was obtained. -/
inductive RState where
  | waiting
  | admitted
  | finished
  | canceled
deriving DecidableEq, Repr

/-- Events of the admission gate: request `i` obtains a slot, request `i` is
cancelled while waiting (and aborted with 429), or request `i` completes and
its deferred Release returns the slot. -/
inductive SemEv where
  | acquire (i : Nat)
  | cancel (i : Nat)
  | finish (i : Nat)
deriving DecidableEq, Repr

/-- Number of requests currently holding an admission slot. -/
def admittedCount : List RState → Nat
  | [] => 0
  | RState.admitted :: rest => admittedCount rest + 1
  | _ :: rest => admittedCount rest

/-- One transition of the admission gate with capacity `cap`: Acquire only
succeeds while fewer than `cap` slots are held; cancellation is only possible
while waiting; Release happens exactly at completion of an admitted request. -/
def semStep (cap : Nat) (s : List RState) : SemEv → Option (List RState)
  | SemEv.acquire i =>
    match s[i]? with
    | some RState.waiting =>
      if admittedCount s < cap then some (s.set i RState.admitted) else none
    | _ => none
  | SemEv.cancel i =>
    match s[i]? with
    | some RState.waiting => some (s.set i RState.canceled)
    | _ => none
  | SemEv.finish i =>
    match s[i]? with
    | some RState.admitted => some (s.set i RState.finished)
    | _ => none

/-- Run a sequence of admission-gate events. -/
def runSem (cap : Nat) : List SemEv → List RState → Option (List RState)
  | [], s => some s
  | ev :: tr, s =>
    match semStep cap s ev with
    | none => none
    | some s1 => runSem cap tr s1

/-- How many times request `i` acquired a slot during a trace. -/
def acquireCount (tr : List SemEv) (i : Nat) : Nat :=
  tr.countP (fun ev => ev == SemEv.acquire i)

/-- How many times request `i` released its slot during a trace. -/
def finishCount (tr : List SemEv) (i : Nat) : Nat :=
  tr.countP (fun ev => ev == SemEv.finish i)

/-- One when request `i` has completed (acquired and released), zero
otherwise. -/
def doneInd (s : List RState) (i : Nat) : Nat :=
  if s[i]? = some RState.finished then 1 else 0

/-- One when request `i` holds or has held a slot, zero otherwise. -/
def heldInd (s : List RState) (i : Nat) : Nat :=
  if s[i]? = some RState.admitted ∨ s[i]? = some RState.finished then 1 else 0

/-- Log severity levels of pkg/logger. -/
inductive Lvl where
  | debug
  | info
  | warn
  | error
  | fatal
deriving DecidableEq, Repr

/-- The severity ranking used by shouldLog (the `levels` map). -/
def levelIdx : Lvl → Nat
  | Lvl.debug => 0
  | Lvl.info => 1
  | Lvl.warn => 2
  | Lvl.error => 3
  | Lvl.fatal => 4

/-- A LogEntry: timestamp (abstract tick), level, caller info, message. -/
structure LEntry where
  timestamp : Nat
  level : Lvl
  caller : String
  message : String
deriving DecidableEq, Repr

/-- Logger configuration (Config struct): minimum level, channel buffer
size, and whether caller capture is enabled. The flush interval is modelled
by the worker's tick event. -/
structure LogCfg where
  logLevel : Lvl
  bufferSize : Nat
  enableCaller : Bool
deriving DecidableEq, Repr

/-- shouldLog: process the entry only when its level ranks at least the
configured minimum. -/
def shouldLog (cfg : LogCfg) (level : Lvl) : Bool :=
  levelIdx cfg.logLevel ≤ levelIdx level

/-- Whole state of the logger: the bounded channel (`queue`), the worker's
accumulating batch, the delivered entries (`sink`, abstracting the log
file), the stderr fallback diagnostics, a ghost list of entries dropped on a
full channel, whether `done` has been closed by Close(), and whether the
worker goroutine has returned. -/
structure LogSys where
  queue : List LEntry
  batch : List LEntry
  sink : List LEntry
  stderrMsgs : List String
  dropped : List LEntry
  doneClosed : Bool
  workerExited : Bool
deriving DecidableEq, Repr

/-- The logger's state at NewLogger: everything empty, worker running. -/
def initLogSys : LogSys :=
  { queue := [], batch := [], sink := [], stderrMsgs := [], dropped := []
    doneClosed := false, workerExited := false }

/-- The producer-side log function of pkg/logger: drop entries below the
configured level, then perform the select-with-default non-blocking send —
queue the entry when the channel has room, otherwise drop it and write a
diagnostic line to stderr. It never waits. -/
def logSubmit (cfg : LogCfg) (s : LogSys) (e : LEntry) : LogSys :=
  if shouldLog cfg e.level = false then s
  else if s.queue.length < cfg.bufferSize then { s with queue := s.queue ++ [e] }
  else
    { s with
      stderrMsgs := s.stderrMsgs ++ ["Logger channel full, dropping log: " ++ e.message]
      dropped := s.dropped ++ [e] }

/-- The public log entry point: builds the LogEntry (timestamp, level,
caller when enabled, message) and submits it non-blockingly. -/
def logCall (cfg : LogCfg) (s : LogSys) (level : Lvl) (msg : String) (now : Nat)
    (callerInfo : String) : LogSys :=
  logSubmit cfg s
    { timestamp := now, level := level
      caller := if cfg.enableCaller then callerInfo else "", message := msg }

/-- The worker's flush closure: append the whole batch to the sink and clear
it (a no-op on an empty batch, exactly as in the source). -/
def flushBatch (s : LogSys) : LogSys :=
  { s with sink := s.sink ++ s.batch, batch := [] }

/-- Events of the logger system: a producer submits an entry; the worker
receives one entry from the channel (flushing when the batch reaches 100 or
the entry is fatal); the flush-interval ticker fires; Close() closes the
`done` channel; the worker observes `done`, performs the final flush of its
batch and returns (after which Close() unblocks). -/
inductive LogEv where
  | submit (e : LEntry)
  | recv
  | tick
  | closeSignal
  | workerStop
deriving DecidableEq, Repr

/-- One transition of the logger. The worker can select `done` (workerStop)
even while entries sit in the channel: the final flush drains only the
batch, not the channel. -/
def logStep (cfg : LogCfg) (s : LogSys) : LogEv → Option LogSys
  | LogEv.submit e => some (logSubmit cfg s e)
  | LogEv.recv =>
    if s.workerExited then none
    else
      match s.queue with
      | [] => none
      | e :: rest =>
        if 100 ≤ s.batch.length + 1 ∨ e.level = Lvl.fatal then
          some (flushBatch { s with queue := rest, batch := s.batch ++ [e] })
        else some { s with queue := rest, batch := s.batch ++ [e] }
  | LogEv.tick => if s.workerExited then none else some (flushBatch s)
  | LogEv.closeSignal => if s.doneClosed then none else some { s with doneClosed := true }
  | LogEv.workerStop =>
    if s.doneClosed ∧ s.workerExited = false then
      some (flushBatch { s with workerExited := true })
    else none

/-- Run a sequence of logger events. -/
def runLog (cfg : LogCfg) : List LogEv → LogSys → Option LogSys
  | [], s => some s
  | ev :: tr, s =>
    match logStep cfg s ev with
    | none => none
    | some s1 => runLog cfg tr s1

/-- The entries of a trace that the producer actually enqueued (submitted
and at or above the configured level). -/
def submittedOf (cfg : LogCfg) : List LogEv → List LEntry
  | [] => []
  | LogEv.submit e :: tr =>
    if shouldLog cfg e.level then e :: submittedOf cfg tr else submittedOf cfg tr
  | _ :: tr => submittedOf cfg tr

/-- Membership in one of the four places an accepted entry can be. -/
def inSystem (s : LogSys) (e : LEntry) : Prop :=
  e ∈ s.queue ∨ e ∈ s.batch ∨ e ∈ s.sink ∨ e ∈ s.dropped

theorem storeSet_lookup_self (l : List (String × String × Int)) (k v : String) (t : Int) :
    (storeSet l k v t).lookup k = some (v, t) := by
  simp [storeSet, List.lookup]

/-- C1: for every client key, checkRateLimit follows exactly the documented
algorithm — an absent counter is set to 1 with the window as expiry and the
request admitted; a counter at or above the maximum causes a 429 rejection
whose Retry-After equals the key's remaining TTL; a counter below the
maximum is incremented (TTL untouched) and the request admitted. -/
theorem c1_rate_limit_algorithm (rl : RateLimiter) (st : RedisSt) (req : Request)
    (hav : st.avail = true) :
    (st.store.lookup req.ip = none →
      (rlMiddleware rl st req).nextCalled = true ∧
      (rlMiddleware rl st req).status = none ∧
      (rlMiddleware rl st req).store.store.lookup req.ip = some ("1", rl.window)) ∧
    (∀ v t n, st.store.lookup req.ip = some (v, t) → atoi v = some n →
      (n ≥ rl.maxRequests →
        (rlMiddleware rl st req).status = some 429 ∧
        (rlMiddleware rl st req).headers = [("Retry-After", HdrVal.dur t)] ∧
        (rlMiddleware rl st req).nextCalled = false ∧
        (rlMiddleware rl st req).store = st) ∧
      (n < rl.maxRequests →
        (rlMiddleware rl st req).nextCalled = true ∧
        (rlMiddleware rl st req).status = none ∧
        (rlMiddleware rl st req).store.store.lookup req.ip = some (toString (n + 1), t))) := by
  constructor
  · intro h
    have hget : rGet st req.ip = .ok none := by simp [rGet, hav, h]
    have hset : rSet st req.ip "1" rl.window =
        .ok { st with store := storeSet st.store req.ip "1" rl.window } := by
      simp [rSet, hav]
    simp [rlMiddleware, checkRateLimit, hget, hset, storeSet_lookup_self]
  · intro v t n hv ha
    have hget : rGet st req.ip = .ok (some v) := by simp [rGet, hav, hv]
    constructor
    · intro hge
      have httl : rTTL st req.ip = .ok t := by simp [rTTL, hav, hv]
      simp [rlMiddleware, checkRateLimit, hget, ha, httl, if_pos hge,
        handleRateLimitExceeded]
    · intro hlt
      have hinc : rIncr st req.ip =
          .ok { st with store := storeSet st.store req.ip (toString (n + 1)) t } := by
        simp [rIncr, hav, hv, ha]
      simp [rlMiddleware, checkRateLimit, hget, ha, if_neg (not_le.mpr hlt), hinc,
        storeSet_lookup_self]

/-- C1 witness: a fresh IP is admitted and its counter opens at 1 with the
full window as expiry. -/
theorem c1_rate_limit_algorithm_witness :
    (rlMiddleware ⟨5, 60⟩ ⟨true, []⟩ ⟨"/x", "1.2.3.4"⟩).nextCalled = true ∧
    (rlMiddleware ⟨5, 60⟩ ⟨true, []⟩ ⟨"/x", "1.2.3.4"⟩).status = none ∧
    (rlMiddleware ⟨5, 60⟩ ⟨true, []⟩ ⟨"/x", "1.2.3.4"⟩).store.store.lookup "1.2.3.4" =
      some ("1", (60 : Int)) :=
  (c1_rate_limit_algorithm ⟨5, 60⟩ ⟨true, []⟩ ⟨"/x", "1.2.3.4"⟩ (by decide)).1 (by decide)

/-- C7: the limiter fails closed — an unreachable store, any store error
inside checkRateLimit, or an unparsable stored counter value each abort the
request with 500 and the downstream handler is never invoked. -/
theorem c7_fail_closed (rl : RateLimiter) (st : RedisSt) (req : Request) :
    (st.avail = false →
      (rlMiddleware rl st req).status = some 500 ∧
      (rlMiddleware rl st req).nextCalled = false) ∧
    (∀ e, checkRateLimit rl st req.ip = .error e →
      (rlMiddleware rl st req).status = some 500 ∧
      (rlMiddleware rl st req).nextCalled = false) ∧
    (∀ v t, st.avail = true → st.store.lookup req.ip = some (v, t) → atoi v = none →
      (rlMiddleware rl st req).status = some 500 ∧
      (rlMiddleware rl st req).nextCalled = false) := by
  refine ⟨?_, ?_, ?_⟩
  · intro hun
    have hget : rGet st req.ip = .error "redis: connection refused" := by
      simp [rGet, hun]
    simp [rlMiddleware, checkRateLimit, hget, handleError]
  · intro e he
    simp [rlMiddleware, he, handleError]
  · intro v t hav hv ha
    have hget : rGet st req.ip = .ok (some v) := by simp [rGet, hav, hv]
    have hc : checkRateLimit rl st req.ip = .error "strconv.Atoi: invalid syntax" := by
      simp [checkRateLimit, hget, ha]
    simp [rlMiddleware, hc, handleError]

/-- C7 witness: with the store down, the request is rejected with 500 and the
handler never runs. -/
theorem c7_fail_closed_witness :
    (rlMiddleware ⟨5, 60⟩ ⟨false, []⟩ ⟨"/x", "1.2.3.4"⟩).status = some 500 ∧
    (rlMiddleware ⟨5, 60⟩ ⟨false, []⟩ ⟨"/x", "1.2.3.4"⟩).nextCalled = false :=
  (c7_fail_closed ⟨5, 60⟩ ⟨false, []⟩ ⟨"/x", "1.2.3.4"⟩).1 (by decide)

/-- C8 counterexample: a rate-limit 429 carries only Retry-After — none of
the X-RateLimit-Limit / X-RateLimit-Remaining / X-RateLimit-Reset headers the
claim requires — and the admission-gate 429 carries no headers at all, not
even Retry-After. -/
theorem c8_counterexample :
    (rlMiddleware ⟨5, 60⟩ ⟨true, [("1.2.3.4", "5", 30)]⟩ ⟨"/tickets/1", "1.2.3.4"⟩).status =
      some 429 ∧
    "X-RateLimit-Limit" ∉
      ((rlMiddleware ⟨5, 60⟩ ⟨true, [("1.2.3.4", "5", 30)]⟩
          ⟨"/tickets/1", "1.2.3.4"⟩).headers.map Prod.fst) ∧
    "X-RateLimit-Remaining" ∉
      ((rlMiddleware ⟨5, 60⟩ ⟨true, [("1.2.3.4", "5", 30)]⟩
          ⟨"/tickets/1", "1.2.3.4"⟩).headers.map Prod.fst) ∧
    "X-RateLimit-Reset" ∉
      ((rlMiddleware ⟨5, 60⟩ ⟨true, [("1.2.3.4", "5", 30)]⟩
          ⟨"/tickets/1", "1.2.3.4"⟩).headers.map Prod.fst) ∧
    semaphoreRejectResp.status = 429 ∧
    "Retry-After" ∉ (semaphoreRejectResp.headers.map Prod.fst) := by
  decide

/-- C8 amended: every 429 produced by the rate limiter carries exactly the
Retry-After header (and none of the X-RateLimit-* headers); the admission
gate's 429 carries no headers at all. -/
theorem c8_429_headers (rl : RateLimiter) (st : RedisSt) (req : Request) :
    ((rlMiddleware rl st req).status = some 429 →
      (rlMiddleware rl st req).headers.map Prod.fst = ["Retry-After"]) ∧
    semaphoreRejectResp.headers = [] := by
  refine ⟨?_, rfl⟩
  intro h
  cases hc : checkRateLimit rl st req.ip with
  | error e =>
    rw [rlMiddleware, hc] at h
    simp [handleError] at h
  | ok p =>
    obtain ⟨allowed, t, st1⟩ := p
    cases allowed with
    | false =>
      rw [rlMiddleware, hc]
      simp [handleRateLimitExceeded]
    | true =>
      rw [rlMiddleware, hc] at h
      simp at h

/-- C8 witness: a concrete over-limit request indeed gets only Retry-After. -/
theorem c8_429_headers_witness :
    ((rlMiddleware ⟨5, 60⟩ ⟨true, [("5.5.5.5", "7", 12)]⟩ ⟨"/y", "5.5.5.5"⟩).headers.map
      Prod.fst = ["Retry-After"]) ∧
    semaphoreRejectResp.headers = [] :=
  ⟨(c8_429_headers ⟨5, 60⟩ ⟨true, [("5.5.5.5", "7", 12)]⟩ ⟨"/y", "5.5.5.5"⟩).1 (by decide),
    (c8_429_headers ⟨5, 60⟩ ⟨true, [("5.5.5.5", "7", 12)]⟩ ⟨"/y", "5.5.5.5"⟩).2⟩

/-- C9 counterexample: swagger documentation paths do NOT bypass the rate
limiter — a request to /swagger is counted against its client's window
counter, and at the limit it is rejected with 429 like any other path. -/
theorem c9_counterexample :
    ((rlMiddleware ⟨5, 60⟩ ⟨true, [("9.9.9.9", "1", 42)]⟩
        ⟨"/swagger/index.html", "9.9.9.9"⟩).store.store.lookup "9.9.9.9" =
      some ("2", 42)) ∧
    ((rlMiddleware ⟨5, 60⟩ ⟨true, [("9.9.9.9", "1", 42)]⟩
        ⟨"/swagger/index.html", "9.9.9.9"⟩).nextCalled = true) ∧
    ((rlMiddleware ⟨5, 60⟩ ⟨true, [("7.7.7.7", "5", 10)]⟩
        ⟨"/swagger/doc.json", "7.7.7.7"⟩).status = some 429) := by
  decide

/-- C9 amended: no route pattern bypasses the limiter — the middleware never
consults the request path, so two requests from the same client to any two
paths (documentation paths included) are treated identically. -/
theorem c9_no_path_bypass (rl : RateLimiter) (st : RedisSt) (pa pb ip : String) :
    rlMiddleware rl st ⟨pa, ip⟩ = rlMiddleware rl st ⟨pb, ip⟩ := rfl

/-- C2 counterexample: a request carrying the inbound correlation id
"abc-123" does not get it echoed back — the middleware sets no response
header at all in that case, contradicting "always writes the id back". -/
theorem c2_counterexample :
    (requestIDMiddleware "" "abc-123" "3f2c0f4e-0000-0000-0000-000000000000").respHeader =
      none ∧
    (requestIDMiddleware "" "abc-123" "3f2c0f4e-0000-0000-0000-000000000000").respHeader ≠
      some ("X-Request-ID", "abc-123") := by
  decide

/-- C2 amended: the middleware uses the inbound header value as the request's
correlation id when present and a freshly generated id otherwise, always
stores the id in the request context, and writes it back as a response header
only when it was freshly generated; an inbound id is not echoed. -/
theorem c2_request_id (headerName inbound freshId : String) :
    (inbound ≠ "" → requestIDMiddleware headerName inbound freshId =
      { ctxRequestId := inbound, respHeader := none, nextCalled := true }) ∧
    (inbound = "" → requestIDMiddleware headerName inbound freshId =
      { ctxRequestId := freshId
        respHeader := some ((if headerName = "" then "X-Request-ID" else headerName), freshId)
        nextCalled := true }) := by
  constructor
  · intro h
    simp [requestIDMiddleware, h]
  · intro h
    simp [requestIDMiddleware, h]

/-- C2 witness: a request without an inbound id gets the fresh id stored and
written back under the default header name. -/
theorem c2_request_id_witness :
    requestIDMiddleware "" "" "u-1" =
      { ctxRequestId := "u-1", respHeader := some ("X-Request-ID", "u-1"),
        nextCalled := true } := by
  have h := (c2_request_id "" "" "u-1").2 rfl
  simpa using h

/-- C6: the auth gate returns 401 — with the handler never invoked and no
claims attached — whenever the header is missing, the scheme is malformed, or
verification fails; on success the decoded claims are attached and the
handler runs. -/
theorem c6_auth_gate (decode : String → Option MapClaims) (hdr : String) :
    (hdr = "" → auth decode hdr = authReject) ∧
    ((goSplitSpace hdr).length ≠ 2 ∨ goToLower ((goSplitSpace hdr).headD "") ≠ "bearer" →
      auth decode hdr = authReject) ∧
    (∀ sch tok, goSplitSpace hdr = [sch, tok] → goToLower sch = "bearer" →
      (decode tok = none → auth decode hdr = authReject) ∧
      (∀ c, decode tok = some c →
        auth decode hdr =
          { status := none, currentUser := some c, nextCalled := true })) := by
  refine ⟨?_, ?_, ?_⟩
  · intro h
    simp [auth, h]
  · intro h
    by_cases he : hdr = ""
    · simp [auth, he]
    · unfold auth
      rw [if_neg he, if_pos h]
  · intro sch tok hsplit hlow
    have he : hdr ≠ "" := by
      intro h
      rw [h] at hsplit
      simp [goSplitSpace, splitChar] at hsplit
    have hcond : ¬ ((goSplitSpace hdr).length ≠ 2 ∨
        goToLower ((goSplitSpace hdr).headD "") ≠ "bearer") := by
      rw [hsplit]
      simp [hlow]
    constructor
    · intro hdec
      unfold auth
      rw [if_neg he, if_neg hcond, hsplit]
      simp [hdec]
    · intro c hdec
      unfold auth
      rw [if_neg he, if_neg hcond, hsplit]
      simp [hdec]

/-- C6 witness: a well-formed bearer token whose verification succeeds passes
the gate with its claims attached, at a concrete header. -/
theorem c6_auth_gate_witness :
    auth (fun t => if t = "tok1" then some [("user_id", JVal.num 7)] else none)
        "Bearer tok1" =
      { status := none, currentUser := some [("user_id", JVal.num 7)],
        nextCalled := true } :=
  ((c6_auth_gate (fun t => if t = "tok1" then some [("user_id", JVal.num 7)] else none)
      "Bearer tok1").2.2 "Bearer" "tok1" (by decide) (by decide)).2
    [("user_id", JVal.num 7)] (by decide)

/-- C10: the declared per-route minimum privilege has no effect — Auth(a) and
Auth(b) behave identically for every request, the gate never returns 403, and
any valid token with a non-nil role claim is admitted regardless of the
role's value. -/
theorem c10_min_scope_unused (decode : String → Option MapClaims) (a b : Int)
    (hdr : String) :
    authScoped decode a hdr = authScoped decode b hdr ∧
    (authScoped decode a hdr).status ≠ some 403 ∧
    (∀ sch tok c, goSplitSpace hdr = [sch, tok] → goToLower sch = "bearer" →
      decode tok = some c → roleIsNil c = false →
      authScoped decode a hdr =
        { status := none, currentUser := some c, nextCalled := true }) := by
  refine ⟨rfl, ?_, ?_⟩
  · unfold authScoped
    split
    · simp [authReject]
    · split
      · simp [authReject]
      · split
        · simp [authReject]
        · split
          · simp [authReject]
          · simp
  · intro sch tok c hsplit hlow hdec hrole
    have he : hdr ≠ "" := by
      intro h
      rw [h] at hsplit
      simp [goSplitSpace, splitChar] at hsplit
    have hcond : ¬ ((goSplitSpace hdr).length ≠ 2 ∨
        goToLower ((goSplitSpace hdr).headD "") ≠ "bearer") := by
      rw [hsplit]
      simp [hlow]
    unfold authScoped
    rw [if_neg he, if_neg hcond, hsplit]
    simp [hdec, hrole]

/-- C10 witness: with two different scopes, a concrete valid token with role 5
is admitted identically under both. -/
theorem c10_min_scope_unused_witness :
    authScoped (fun t => if t = "tok2" then some [("role", JVal.num 5)] else none) 1
        "bearer tok2" =
      authScoped (fun t => if t = "tok2" then some [("role", JVal.num 5)] else none) 2
        "bearer tok2" ∧
    authScoped (fun t => if t = "tok2" then some [("role", JVal.num 5)] else none) 1
        "bearer tok2" =
      { status := none, currentUser := some [("role", JVal.num 5)], nextCalled := true } :=
  ⟨(c10_min_scope_unused (fun t => if t = "tok2" then some [("role", JVal.num 5)] else none)
      1 2 "bearer tok2").1,
    (c10_min_scope_unused (fun t => if t = "tok2" then some [("role", JVal.num 5)] else none)
      1 2 "bearer tok2").2.2 "bearer" "tok2" [("role", JVal.num 5)] (by decide) (by decide)
      (by decide) (by decide)⟩

theorem admittedCount_cons (x : RState) (xs : List RState) :
    admittedCount (x :: xs) =
      (if x = RState.admitted then 1 else 0) + admittedCount xs := by
  cases x <;> simp [admittedCount, Nat.add_comm]

theorem admittedCount_set (s : List RState) (i : Nat) (a b : RState)
    (h : s[i]? = some a) :
    admittedCount (s.set i b) + (if a = RState.admitted then 1 else 0) =
      admittedCount s + (if b = RState.admitted then 1 else 0) := by
  induction s generalizing i with
  | nil => simp at h
  | cons x xs ih =>
    cases i with
    | zero =>
      simp at h
      subst h
      simp [List.set, admittedCount_cons]
      omega
    | succ j =>
      simp at h
      have := ih j h
      simp [List.set, admittedCount_cons]
      omega

theorem get_lt_length (s : List RState) (i : Nat) (a : RState)
    (h : s[i]? = some a) : i < s.length := by
  by_contra hc
  rw [List.getElem?_eq_none (by omega)] at h
  exact Option.noConfusion h

theorem semStep_admittedCount_le (cap : Nat) (s s1 : List RState) (ev : SemEv)
    (hstep : semStep cap s ev = some s1) (hle : admittedCount s ≤ cap) :
    admittedCount s1 ≤ cap := by
  cases ev with
  | acquire i =>
    simp only [semStep] at hstep
    cases hg : s[i]? with
    | none => rw [hg] at hstep; exact Option.noConfusion hstep
    | some a =>
      cases a <;> rw [hg] at hstep <;> try exact Option.noConfusion hstep
      by_cases hlt : admittedCount s < cap
      · rw [if_pos hlt] at hstep
        cases hstep
        have := admittedCount_set s i RState.waiting RState.admitted hg
        simp at this
        omega
      · rw [if_neg hlt] at hstep
        exact Option.noConfusion hstep
  | cancel i =>
    simp only [semStep] at hstep
    cases hg : s[i]? with
    | none => rw [hg] at hstep; exact Option.noConfusion hstep
    | some a =>
      cases a <;> rw [hg] at hstep <;> try exact Option.noConfusion hstep
      cases hstep
      have := admittedCount_set s i RState.waiting RState.canceled hg
      simp at this
      omega
  | finish i =>
    simp only [semStep] at hstep
    cases hg : s[i]? with
    | none => rw [hg] at hstep; exact Option.noConfusion hstep
    | some a =>
      cases a <;> rw [hg] at hstep <;> try exact Option.noConfusion hstep
      cases hstep
      have := admittedCount_set s i RState.admitted RState.finished hg
      simp at this
      omega

theorem runSem_admittedCount_le (cap : Nat) (tr : List SemEv) (s s1 : List RState)
    (hrun : runSem cap tr s = some s1) (hle : admittedCount s ≤ cap) :
    admittedCount s1 ≤ cap := by
  induction tr generalizing s with
  | nil =>
    simp [runSem] at hrun
    subst hrun
    exact hle
  | cons ev tr ih =>
    simp only [runSem] at hrun
    cases hstep : semStep cap s ev with
    | none => rw [hstep] at hrun; exact Option.noConfusion hrun
    | some s2 =>
      rw [hstep] at hrun
      exact ih s2 hrun (semStep_admittedCount_le cap s s2 ev hstep hle)

theorem semStep_doneInd (cap : Nat) (s s1 : List RState) (ev : SemEv) (i : Nat)
    (hstep : semStep cap s ev = some s1) :
    (if ev == SemEv.finish i then 1 else 0) + doneInd s i = doneInd s1 i := by
  cases ev with
  | acquire j =>
    simp only [semStep] at hstep
    cases hg : s[j]? with
    | none => rw [hg] at hstep; exact Option.noConfusion hstep
    | some a =>
      cases a <;> rw [hg] at hstep <;> try exact Option.noConfusion hstep
      by_cases hlt : admittedCount s < cap
      · rw [if_pos hlt] at hstep
        cases hstep
        by_cases hij : j = i
        · subst hij
          simp [doneInd, List.getElem?_set_self (get_lt_length s j _ hg), hg]
        · simp [doneInd, List.getElem?_set_ne hij]
      · rw [if_neg hlt] at hstep
        exact Option.noConfusion hstep
  | cancel j =>
    simp only [semStep] at hstep
    cases hg : s[j]? with
    | none => rw [hg] at hstep; exact Option.noConfusion hstep
    | some a =>
      cases a <;> rw [hg] at hstep <;> try exact Option.noConfusion hstep
      cases hstep
      by_cases hij : j = i
      · subst hij
        simp [doneInd, List.getElem?_set_self (get_lt_length s j _ hg), hg]
      · simp [doneInd, List.getElem?_set_ne hij]
  | finish j =>
    simp only [semStep] at hstep
    cases hg : s[j]? with
    | none => rw [hg] at hstep; exact Option.noConfusion hstep
    | some a =>
      cases a <;> rw [hg] at hstep <;> try exact Option.noConfusion hstep
      cases hstep
      by_cases hij : j = i
      · subst hij
        simp [doneInd, List.getElem?_set_self (get_lt_length s j _ hg), hg]
      · simp [doneInd, List.getElem?_set_ne hij,
          show (SemEv.finish j == SemEv.finish i) = false by simp [hij]]

theorem semStep_heldInd (cap : Nat) (s s1 : List RState) (ev : SemEv) (i : Nat)
    (hstep : semStep cap s ev = some s1) :
    (if ev == SemEv.acquire i then 1 else 0) + heldInd s i = heldInd s1 i := by
  cases ev with
  | acquire j =>
    simp only [semStep] at hstep
    cases hg : s[j]? with
    | none => rw [hg] at hstep; exact Option.noConfusion hstep
    | some a =>
      cases a <;> rw [hg] at hstep <;> try exact Option.noConfusion hstep
      by_cases hlt : admittedCount s < cap
      · rw [if_pos hlt] at hstep
        cases hstep
        by_cases hij : j = i
        · subst hij
          simp [heldInd, List.getElem?_set_self (get_lt_length s j _ hg), hg]
        · simp [heldInd, List.getElem?_set_ne hij,
            show (SemEv.acquire j == SemEv.acquire i) = false by simp [hij]]
      · rw [if_neg hlt] at hstep
        exact Option.noConfusion hstep
  | cancel j =>
    simp only [semStep] at hstep
    cases hg : s[j]? with
    | none => rw [hg] at hstep; exact Option.noConfusion hstep
    | some a =>
      cases a <;> rw [hg] at hstep <;> try exact Option.noConfusion hstep
      cases hstep
      by_cases hij : j = i
      · subst hij
        simp [heldInd, List.getElem?_set_self (get_lt_length s j _ hg), hg]
      · simp [heldInd, List.getElem?_set_ne hij]
  | finish j =>
    simp only [semStep] at hstep
    cases hg : s[j]? with
    | none => rw [hg] at hstep; exact Option.noConfusion hstep
    | some a =>
      cases a <;> rw [hg] at hstep <;> try exact Option.noConfusion hstep
      cases hstep
      by_cases hij : j = i
      · subst hij
        simp [heldInd, List.getElem?_set_self (get_lt_length s j _ hg), hg]
      · simp [heldInd, List.getElem?_set_ne hij]

theorem runSem_doneInd (cap : Nat) (tr : List SemEv) (s s1 : List RState) (i : Nat)
    (hrun : runSem cap tr s = some s1) :
    finishCount tr i + doneInd s i = doneInd s1 i := by
  induction tr generalizing s with
  | nil =>
    simp [runSem] at hrun
    subst hrun
    simp [finishCount]
  | cons ev tr ih =>
    simp only [runSem] at hrun
    cases hstep : semStep cap s ev with
    | none => rw [hstep] at hrun; exact Option.noConfusion hrun
    | some s2 =>
      rw [hstep] at hrun
      have h1 := semStep_doneInd cap s s2 ev i hstep
      have h2 := ih s2 hrun
      simp only [finishCount, List.countP_cons] at h2 ⊢
      omega

theorem runSem_heldInd (cap : Nat) (tr : List SemEv) (s s1 : List RState) (i : Nat)
    (hrun : runSem cap tr s = some s1) :
    acquireCount tr i + heldInd s i = heldInd s1 i := by
  induction tr generalizing s with
  | nil =>
    simp [runSem] at hrun
    subst hrun
    simp [acquireCount]
  | cons ev tr ih =>
    simp only [runSem] at hrun
    cases hstep : semStep cap s ev with
    | none => rw [hstep] at hrun; exact Option.noConfusion hrun
    | some s2 =>
      rw [hstep] at hrun
      have h1 := semStep_heldInd cap s s2 ev i hstep
      have h2 := ih s2 hrun
      simp only [acquireCount, List.countP_cons] at h2 ⊢
      omega

theorem admittedCount_replicate (n : Nat) :
    admittedCount (List.replicate n RState.waiting) = 0 := by
  induction n with
  | zero => simp [admittedCount]
  | succ m ih => simpa [List.replicate, admittedCount] using ih

theorem doneInd_replicate (n i : Nat) :
    doneInd (List.replicate n RState.waiting) i = 0 := by
  unfold doneInd
  cases hg : (List.replicate n RState.waiting)[i]? with
  | none => simp
  | some a =>
    have := List.getElem?_mem hg
    rw [List.eq_of_mem_replicate this]
    simp

theorem heldInd_replicate (n i : Nat) :
    heldInd (List.replicate n RState.waiting) i = 0 := by
  unfold heldInd
  cases hg : (List.replicate n RState.waiting)[i]? with
  | none => simp
  | some a =>
    have := List.getElem?_mem hg
    rw [List.eq_of_mem_replicate this]
    simp

/-- C3: in every state reachable by the admission gate from `n` waiting
requests, at most `cap` requests hold a slot simultaneously; each request
acquires a slot exactly when it ends up admitted or finished and releases it
exactly when it finishes (so a slot once acquired is released exactly once,
and a waiting or cancelled request never held one). -/
theorem c3_admission_gate (cap n : Nat) (tr : List SemEv) (s : List RState)
    (hrun : runSem cap tr (List.replicate n RState.waiting) = some s) :
    admittedCount s ≤ cap ∧
    (∀ i, acquireCount tr i = heldInd s i) ∧
    (∀ i, finishCount tr i = doneInd s i) ∧
    (∀ i, s[i]? = some RState.canceled → acquireCount tr i = 0) := by
  have hadm := runSem_admittedCount_le cap tr _ s hrun
    (by rw [admittedCount_replicate]; omega)
  have hheld : ∀ i, acquireCount tr i = heldInd s i := by
    intro i
    have := runSem_heldInd cap tr _ s i hrun
    rw [heldInd_replicate] at this
    omega
  have hdone : ∀ i, finishCount tr i = doneInd s i := by
    intro i
    have := runSem_doneInd cap tr _ s i hrun
    rw [doneInd_replicate] at this
    omega
  refine ⟨hadm, hheld, hdone, ?_⟩
  intro i hc
  rw [hheld i]
  simp [heldInd, hc]

/-- C3 witness: with capacity 1 and two requests, the trace where request 0
acquires, request 1 is cancelled while waiting, and request 0 finishes ends
with at most one slot held, request 0 having released exactly once, and
request 1 never having acquired. -/
theorem c3_admission_gate_witness :
    admittedCount [RState.finished, RState.canceled] ≤ 1 ∧
    finishCount [SemEv.acquire 0, SemEv.cancel 1, SemEv.finish 0] 0 = 1 ∧
    acquireCount [SemEv.acquire 0, SemEv.cancel 1, SemEv.finish 0] 1 = 0 := by
  have h := c3_admission_gate 1 2 [SemEv.acquire 0, SemEv.cancel 1, SemEv.finish 0]
    [RState.finished, RState.canceled] (by decide)
  exact ⟨h.1, by rw [h.2.2.1 0]; decide, h.2.2.2 1 (by decide)⟩

theorem logSubmit_workerExited (cfg : LogCfg) (s : LogSys) (e : LEntry) :
    (logSubmit cfg s e).workerExited = s.workerExited := by
  unfold logSubmit
  split
  · rfl
  · split <;> rfl

theorem logSubmit_batch (cfg : LogCfg) (s : LogSys) (e : LEntry) :
    (logSubmit cfg s e).batch = s.batch := by
  unfold logSubmit
  split
  · rfl
  · split <;> rfl

theorem logSubmit_inSystem (cfg : LogCfg) (s : LogSys) (e a : LEntry)
    (h : inSystem s a) : inSystem (logSubmit cfg s e) a := by
  unfold logSubmit
  by_cases hs : shouldLog cfg e.level = false
  · rw [if_pos hs]
    exact h
  · rw [if_neg hs]
    rcases h with h | h | h | h <;> split <;> simp [inSystem, h]

theorem logSubmit_self_inSystem (cfg : LogCfg) (s : LogSys) (e : LEntry)
    (h : shouldLog cfg e.level = true) : inSystem (logSubmit cfg s e) e := by
  unfold logSubmit
  rw [h]
  simp only [Bool.true_eq_false, if_false]
  split <;> simp [inSystem]

theorem logStep_inSystem (cfg : LogCfg) (s s1 : LogSys) (ev : LogEv) (a : LEntry)
    (hstep : logStep cfg s ev = some s1) (h : inSystem s a) : inSystem s1 a := by
  cases ev with
  | submit e =>
    simp only [logStep] at hstep
    cases hstep
    exact logSubmit_inSystem cfg s e a h
  | recv =>
    simp only [logStep] at hstep
    by_cases hw : s.workerExited
    · rw [if_pos hw] at hstep; exact Option.noConfusion hstep
    · rw [if_neg hw] at hstep
      cases hq : s.queue with
      | nil => rw [hq] at hstep; exact Option.noConfusion hstep
      | cons e rest =>
        simp only [hq] at hstep
        by_cases hc : 100 ≤ s.batch.length + 1 ∨ e.level = Lvl.fatal
        · rw [if_pos hc] at hstep
          cases hstep
          rcases h with h | h | h | h
          · rw [hq] at h
            rcases List.mem_cons.mp h with h1 | h1
            · subst h1
              simp [inSystem, flushBatch]
            · simp [inSystem, flushBatch, h1]
          · simp [inSystem, flushBatch, h]
          · simp [inSystem, flushBatch, h]
          · simp [inSystem, flushBatch, h]
        · rw [if_neg hc] at hstep
          cases hstep
          rcases h with h | h | h | h
          · rw [hq] at h
            rcases List.mem_cons.mp h with h1 | h1
            · subst h1
              simp [inSystem]
            · simp [inSystem, h1]
          · simp [inSystem, h]
          · simp [inSystem, h]
          · simp [inSystem, h]
  | tick =>
    simp only [logStep] at hstep
    split at hstep
    · exact Option.noConfusion hstep
    · cases hstep
      rcases h with h | h | h | h <;> simp [inSystem, flushBatch, h]
  | closeSignal =>
    simp only [logStep] at hstep
    split at hstep
    · exact Option.noConfusion hstep
    · cases hstep
      rcases h with h | h | h | h <;> simp [inSystem, h]
  | workerStop =>
    simp only [logStep] at hstep
    split at hstep
    · cases hstep
      rcases h with h | h | h | h <;> simp [inSystem, flushBatch, h]
    · exact Option.noConfusion hstep

theorem runLog_inSystem (cfg : LogCfg) (tr : List LogEv) (s s1 : LogSys) (a : LEntry)
    (hrun : runLog cfg tr s = some s1) (h : inSystem s a ∨ a ∈ submittedOf cfg tr) :
    inSystem s1 a := by
  induction tr generalizing s with
  | nil =>
    simp [runLog] at hrun
    subst hrun
    rcases h with h | h
    · exact h
    · simp [submittedOf] at h
  | cons ev tr ih =>
    simp only [runLog] at hrun
    cases hstep : logStep cfg s ev with
    | none => rw [hstep] at hrun; exact Option.noConfusion hrun
    | some s2 =>
      rw [hstep] at hrun
      apply ih s2 hrun
      rcases h with h | h
      · exact Or.inl (logStep_inSystem cfg s s2 ev a hstep h)
      · cases ev with
        | submit e =>
          simp only [submittedOf] at h
          by_cases hsl : shouldLog cfg e.level
          · rw [if_pos hsl] at h
            rcases List.mem_cons.mp h with h1 | h1
            · subst h1
              simp only [logStep] at hstep
              cases hstep
              exact Or.inl (logSubmit_self_inSystem cfg s a hsl)
            · exact Or.inr h1
          · rw [if_neg hsl] at h
            exact Or.inr h
        | recv => exact Or.inr h
        | tick => exact Or.inr h
        | closeSignal => exact Or.inr h
        | workerStop => exact Or.inr h

theorem logStep_exit_batch (cfg : LogCfg) (s s1 : LogSys) (ev : LogEv)
    (hstep : logStep cfg s ev = some s1)
    (h : s.workerExited = true → s.batch = []) :
    s1.workerExited = true → s1.batch = [] := by
  cases ev with
  | submit e =>
    simp only [logStep] at hstep
    cases hstep
    intro hx
    rw [logSubmit_workerExited] at hx
    rw [logSubmit_batch]
    exact h hx
  | recv =>
    simp only [logStep] at hstep
    by_cases hw : s.workerExited
    · rw [if_pos hw] at hstep; exact Option.noConfusion hstep
    · rw [if_neg hw] at hstep
      cases hq : s.queue with
      | nil => rw [hq] at hstep; exact Option.noConfusion hstep
      | cons e rest =>
        simp only [hq] at hstep
        by_cases hc : 100 ≤ s.batch.length + 1 ∨ e.level = Lvl.fatal
        · rw [if_pos hc] at hstep
          cases hstep
          intro _
          simp [flushBatch]
        · rw [if_neg hc] at hstep
          cases hstep
          intro hx
          simp only at hx
          exact absurd hx (by simpa using hw)
  | tick =>
    simp only [logStep] at hstep
    split at hstep
    · exact Option.noConfusion hstep
    · cases hstep
      intro hx
      simp [flushBatch]
  | closeSignal =>
    simp only [logStep] at hstep
    split at hstep
    · exact Option.noConfusion hstep
    · cases hstep
      intro hx
      simp only at hx
      exact h hx
  | workerStop =>
    simp only [logStep] at hstep
    split at hstep
    · cases hstep
      intro _
      simp [flushBatch]
    · exact Option.noConfusion hstep

theorem runLog_exit_batch (cfg : LogCfg) (tr : List LogEv) (s s1 : LogSys)
    (hrun : runLog cfg tr s = some s1)
    (h : s.workerExited = true → s.batch = []) :
    s1.workerExited = true → s1.batch = [] := by
  induction tr generalizing s with
  | nil =>
    simp [runLog] at hrun
    subst hrun
    exact h
  | cons ev tr ih =>
    simp only [runLog] at hrun
    cases hstep : logStep cfg s ev with
    | none => rw [hstep] at hrun; exact Option.noConfusion hrun
    | some s2 =>
      rw [hstep] at hrun
      exact ih s2 hrun (logStep_exit_batch cfg s s2 ev hstep h)

/-- C4 counterexample: an entry enqueued before the shutdown signal need not
be in the sink when Close() returns. In the trace submit-close-stop the
worker selects the done case while the entry still sits in the channel; the
final flush delivers only the (empty) batch, so the run ends with the worker
exited, the sink empty, and the enqueued entry stranded in the queue. -/
theorem c4_counterexample :
    runLog ⟨Lvl.debug, 1000, false⟩
        [LogEv.submit ⟨0, Lvl.info, "", "m1"⟩, LogEv.closeSignal, LogEv.workerStop]
        initLogSys =
      some { queue := [⟨0, Lvl.info, "", "m1"⟩], batch := [], sink := []
             stderrMsgs := [], dropped := [], doneClosed := true, workerExited := true } ∧
    submittedOf ⟨Lvl.debug, 1000, false⟩
        [LogEv.submit ⟨0, Lvl.info, "", "m1"⟩, LogEv.closeSignal, LogEv.workerStop] =
      [⟨0, Lvl.info, "", "m1"⟩] := by
  decide

/-- C4 amended: Close() blocks until the worker has performed its final
flush and returned, and that flush empties the batch; every entry enqueued
before shutdown is then either delivered to the sink, still stranded in the
channel (and lost), or was dropped earlier on a full channel — entries the
worker had moved into its batch are always delivered. -/
theorem c4_close_drains_batch (cfg : LogCfg) (tr : List LogEv) (s : LogSys)
    (hrun : runLog cfg tr initLogSys = some s) (hx : s.workerExited = true) :
    s.batch = [] ∧
    ∀ e, e ∈ submittedOf cfg tr → (e ∈ s.sink ∨ e ∈ s.queue ∨ e ∈ s.dropped) := by
  have hb : s.batch = [] :=
    runLog_exit_batch cfg tr initLogSys s hrun (by intro h; simp [initLogSys]) hx
  refine ⟨hb, ?_⟩
  intro e he
  have := runLog_inSystem cfg tr initLogSys s e hrun (Or.inr he)
  rcases this with h | h | h | h
  · exact Or.inr (Or.inl h)
  · rw [hb] at h
    simp at h
  · exact Or.inl h
  · exact Or.inr (Or.inr h)

/-- C4 witness: in a trace where the worker receives the entry before the
shutdown signal, the final state has an empty batch and the entry delivered
to the sink. -/
theorem c4_close_drains_batch_witness :
    ({ queue := [], batch := [], sink := [⟨0, Lvl.info, "", "m1"⟩]
       stderrMsgs := [], dropped := [], doneClosed := true,
       workerExited := true } : LogSys).batch = ([] : List LEntry) ∧
    ((⟨0, Lvl.info, "", "m1"⟩ : LEntry) ∈
        ({ queue := [], batch := [], sink := [⟨0, Lvl.info, "", "m1"⟩]
           stderrMsgs := [], dropped := [], doneClosed := true,
           workerExited := true } : LogSys).sink ∨
      (⟨0, Lvl.info, "", "m1"⟩ : LEntry) ∈
        ({ queue := [], batch := [], sink := [⟨0, Lvl.info, "", "m1"⟩]
           stderrMsgs := [], dropped := [], doneClosed := true,
           workerExited := true } : LogSys).queue ∨
      (⟨0, Lvl.info, "", "m1"⟩ : LEntry) ∈
        ({ queue := [], batch := [], sink := [⟨0, Lvl.info, "", "m1"⟩]
           stderrMsgs := [], dropped := [], doneClosed := true,
           workerExited := true } : LogSys).dropped) := by
  have h := c4_close_drains_batch ⟨Lvl.debug, 1000, false⟩
    [LogEv.submit ⟨0, Lvl.info, "", "m1"⟩, LogEv.recv, LogEv.closeSignal, LogEv.workerStop]
    { queue := [], batch := [], sink := [⟨0, Lvl.info, "", "m1"⟩]
      stderrMsgs := [], dropped := [], doneClosed := true, workerExited := true }
    (by decide) (by decide)
  exact ⟨h.1, h.2 ⟨0, Lvl.info, "", "m1"⟩ (by decide)⟩

/-- C5: the producer-side enqueue is total (it never waits): an accepted
entry is appended to the queue when there is room; on a full queue the entry
is dropped with a stderr diagnostic and the queue is untouched; the queue
never grows beyond the configured capacity; and the sink and batch — the
response path's view — are never touched by the producer. -/
theorem c5_nonblocking_enqueue (cfg : LogCfg) (s : LogSys) (level : Lvl)
    (msg : String) (now : Nat) (ci : String)
    (hl : shouldLog cfg level = true) :
    (s.queue.length < cfg.bufferSize →
      (logCall cfg s level msg now ci).queue =
        s.queue ++ [{ timestamp := now, level := level
                      caller := if cfg.enableCaller then ci else "", message := msg }] ∧
      (logCall cfg s level msg now ci).stderrMsgs = s.stderrMsgs) ∧
    (cfg.bufferSize ≤ s.queue.length →
      (logCall cfg s level msg now ci).queue = s.queue ∧
      (logCall cfg s level msg now ci).stderrMsgs =
        s.stderrMsgs ++ ["Logger channel full, dropping log: " ++ msg]) ∧
    ((logCall cfg s level msg now ci).queue.length ≤
      max s.queue.length cfg.bufferSize) ∧
    (logCall cfg s level msg now ci).sink = s.sink ∧
    (logCall cfg s level msg now ci).batch = s.batch := by
  unfold logCall logSubmit
  rw [hl]
  simp only [Bool.true_eq_false, if_false]
  refine ⟨?_, ?_, ?_, ?_, ?_⟩
  · intro hroom
    rw [if_pos hroom]
    exact ⟨rfl, rfl⟩
  · intro hfull
    rw [if_neg (by omega)]
    exact ⟨rfl, rfl⟩
  · split
    · rename_i hroom
      simp only [List.length_append, List.length_cons, List.length_nil]
      omega
    · exact le_max_left _ _
  · split <;> rfl
  · split <;> rfl

/-- C5 witness: at a concrete one-slot queue, an accepted entry is enqueued
without touching the fallback channel. -/
theorem c5_nonblocking_enqueue_witness :
    (logCall ⟨Lvl.debug, 8, false⟩ initLogSys Lvl.info "hello" 3 "").queue =
        ([] : List LEntry) ++ [{ timestamp := 3, level := Lvl.info
                                 caller := if (false : Bool) then "" else ""
                                 message := "hello" }] ∧
    (logCall ⟨Lvl.debug, 8, false⟩ initLogSys Lvl.info "hello" 3 "").stderrMsgs =
      ([] : List String) :=
  (c5_nonblocking_enqueue ⟨Lvl.debug, 8, false⟩ initLogSys Lvl.info "hello" 3 ""
    (by decide)).1 (by decide)

end VisionData

